import Mathlib

/-!
Shallow embedding of the TQQQ Tier-1 signal engine (src/app.py):
the indicator pipeline, the per-bar signal state machine, and the
position sizer.  NaN-valued floats are modelled as none; pandas
comparisons involving NaN yield false, Python truthiness of NaN is
true, and Python max with a NaN second argument returns its first
argument.
-/

/-- Pandas-style comparison a > b on possibly-NaN values: false when
either side is NaN. -/
def oGt : Option ℚ → Option ℚ → Bool
  | some x, some y => decide (y < x)
  | _, _ => false

/-- Pandas-style comparison a < b on possibly-NaN values. -/
def oLt : Option ℚ → Option ℚ → Bool
  | some x, some y => decide (x < y)
  | _, _ => false

/-- Pandas-style comparison a < c against a plain constant. -/
def oLtC : Option ℚ → ℚ → Bool
  | some x, c => decide (x < c)
  | none, _ => false

/-- Pandas-style comparison a > c against a plain constant. -/
def oGtC : Option ℚ → ℚ → Bool
  | some x, c => decide (c < x)
  | none, _ => false

/-- Python truthiness of a possibly-NaN boolean value: NaN is truthy. -/
def truthy : Option Bool → Bool
  | some b => b
  | none => true

/-- Comparison low <= trail where the trail level may be NaN. -/
def lowLeTrail (x : ℚ) : Option ℚ → Bool
  | some v => decide (x ≤ v)
  | none => false

/-- Comparison high >= target where the target level may be NaN. -/
def highGeTarget (x : ℚ) : Option ℚ → Bool
  | some v => decide (v ≤ x)
  | none => false

/-- Python max of two possibly-NaN floats, as in max(trail, new_trail):
a NaN second argument leaves the first argument in place, while a NaN
first argument propagates. -/
def pyMax : Option ℚ → Option ℚ → Option ℚ
  | some x, some y => some (max x y)
  | some x, none => some x
  | none, _ => none

/-- Python int() truncation toward zero on an exact rational. -/
def pyTrunc (q : ℚ) : ℤ := if 0 ≤ q then q.floor else -((-q).floor)

/-- The executable Batteries floor on rationals agrees with the
mathematical floor. -/
theorem ratFloor_eq_intFloor (q : ℚ) : q.floor = ⌊q⌋ := by
  rw [Rat.floor_def', ← Rat.floor_def]

/-- Sidebar strategy parameters of the app. -/
structure Params where
  shortMa : ℕ
  longMa : ℕ
  rsiPeriod : ℕ
  rsiBuy : ℚ
  rsiSell : ℚ
  atrPeriod : ℕ
  stopAtr : ℚ
  targetAtr : ℚ
  trailAtr : ℚ
  volatilityFilter : ℚ
deriving Repr

/-- Default slider values of the app sidebar. -/
def pDefault : Params :=
  { shortMa := 20, longMa := 100, rsiPeriod := 14, rsiBuy := 30, rsiSell := 70,
    atrPeriod := 14, stopAtr := 2, targetAtr := 4, trailAtr := 2, volatilityFilter := 80 }

/-- One row of the price DataFrame as seen by the signal loop: raw OHLC
fields are plain rationals (data is pre-cleaned by dropna), derived
indicator columns may be NaN, and the date-aligned trend gate may be a
boolean or NaN. -/
structure Row where
  low : ℚ
  high : ℚ
  close : ℚ
  smaS : Option ℚ
  smaL : Option ℚ
  rsi : Option ℚ
  atr : Option ℚ
  atrPct : Option ℚ
  trendOK : Option Bool
deriving Repr

/-- The per-bar labels written to the Signal column. cash is the
untouched default value. -/
inductive Signal where
  | cash
  | buy
  | noTrade
  | sell
  | trailStop
  | takeProfit
deriving DecidableEq, Repr

/-- Mutable loop state of the signal engine: the in-position flag and
the entry, stop, target and trail levels, each possibly NaN. -/
structure EngState where
  inPos : Bool
  entry : Option ℚ
  stop : Option ℚ
  target : Option ℚ
  trail : Option ℚ
deriving Repr

/-- Initial loop state: in_pos = False and entry = stop = target =
trail = 0. -/
def initState : EngState := ⟨false, some 0, some 0, some 0, some 0⟩

/-- Entry condition of the flat branch of the loop: SMA_S > SMA_L and
RSI < rsi_buy and Trend_OK (Python truthiness) and ATR_pct <
volatility_filter. -/
def entryCond (p : Params) (r : Row) : Bool :=
  oGt r.smaS r.smaL && oLtC r.rsi p.rsiBuy && truthy r.trendOK &&
    oLtC r.atrPct p.volatilityFilter

/-- One iteration of the signal loop, acting on one row: when flat,
either enter (BUY, recording entry, stop, target, trail) or emit NO
TRADE; when in a position, first ratchet the trailing stop with
max(trail, close − trail_atr·ATR), then check the trail stop, the
profit target and the signal reversal in that order, leaving the
default label in place when no exit fires. -/
def stepBar (p : Params) (s : EngState) (r : Row) : Signal × EngState :=
  if s.inPos = false then
    if entryCond p r then
      let stop := r.atr.map (fun a => r.close - p.stopAtr * a)
      let tgt := r.atr.map (fun a => r.close + p.targetAtr * a)
      (Signal.buy, { inPos := true, entry := some r.close, stop := stop,
                     target := tgt, trail := stop })
    else
      (Signal.noTrade, s)
  else
    let tr := pyMax s.trail (r.atr.map (fun a => r.close - p.trailAtr * a))
    if lowLeTrail r.low tr then
      (Signal.trailStop, { s with inPos := false, trail := tr })
    else if highGeTarget r.high s.target then
      (Signal.takeProfit, { s with inPos := false, trail := tr })
    else if oLt r.smaS r.smaL || oGtC r.rsi p.rsiSell then
      (Signal.sell, { s with inPos := false, trail := tr })
    else
      (Signal.cash, { s with trail := tr })

/-- The loop body iterated over the remaining rows, threading the
state. -/
def stepsFrom (p : Params) : EngState → List Row → List Signal
  | _, [] => []
  | s, r :: rest =>
    (stepBar p s r).1 :: stepsFrom p (stepBar p s r).2 rest

/-- The full signal engine: the first bar keeps its default CASH label
(the loop starts at index 1), the rest is the iterated loop from the
initial state. -/
def runEngine (p : Params) (rows : List Row) : List Signal :=
  match rows with
  | [] => []
  | _ :: rest => Signal.cash :: stepsFrom p initState rest

/-- Latest bar of the series, as accessed by price.iloc[-1]; none means
the access raises. -/
def latestRow (rows : List Row) : Option Row := rows.getLast?

/-- Position sizer: risk_dollars = account_size · risk_per_trade;
int(risk_dollars / (stop_atr · ATR)) when the latest ATR compares
greater than 0 (false for NaN), else 0. -/
def computeShares (accountSize riskPerTrade stopAtr : ℚ) (atr : Option ℚ) : ℤ :=
  match atr with
  | some a => if 0 < a then pyTrunc (accountSize * riskPerTrade / (stopAtr * a)) else 0
  | none => 0

/-!
Indicator pipeline.  One bar of raw downloaded data carries a date key
(used only for the benchmark alignment) and high, low, close prices.
Rolling indicators are given per index; a full window that would reach
an undefined input (such as the NaN first difference feeding the RSI)
yields none, exactly as a pandas rolling mean over a window containing
a NaN does.
-/

/-- One raw OHLC bar; the open price is never read by the engine. -/
structure Bar where
  date : ℕ
  high : ℚ
  low : ℚ
  close : ℚ
deriving Repr, Inhabited

/-- Close price at an index of the bar list. -/
def closeAt (bars : List Bar) (i : ℕ) : ℚ := (bars.getD i default).close

/-- Arithmetic mean of a list of rationals. -/
def listMean (xs : List ℚ) : ℚ := xs.sum / xs.length

/-- Trailing rolling mean over a window of n values ending at index i:
defined once the window is full, as with pandas rolling(n).mean() on an
all-defined input column. -/
def rollMeanAt (n : ℕ) (f : ℕ → ℚ) (i : ℕ) : Option ℚ :=
  if n ≤ i + 1 then some (listMean ((List.range n).map (fun k => f (i + 1 - n + k)))) else none

/-- Daily gain: the positive part of the close-over-close difference,
as produced by delta.clip(lower=0). -/
def gainAt (bars : List Bar) (j : ℕ) : ℚ := max (closeAt bars j - closeAt bars (j - 1)) 0

/-- Daily loss: the positive part of the negated difference, as
produced by -delta.clip(upper=0). -/
def lossAt (bars : List Bar) (j : ℕ) : ℚ := max (closeAt bars (j - 1) - closeAt bars j) 0

/-- RSI at an index: undefined while the rolling window of gains and
losses still overlaps the NaN first difference (that is, for all
i < rsiPeriod); 100 - 100/(1 + rs) when the average loss is positive;
the IEEE limit 100 when the average loss is zero but the average gain
is positive (rs is +infinity); NaN when both averages are zero (rs is
0/0). -/
def rsiAt (p : Params) (bars : List Bar) (i : ℕ) : Option ℚ :=
  if p.rsiPeriod ≤ i then
    let ag := listMean ((List.range p.rsiPeriod).map (fun k => gainAt bars (i + 1 - p.rsiPeriod + k)))
    let al := listMean ((List.range p.rsiPeriod).map (fun k => lossAt bars (i + 1 - p.rsiPeriod + k)))
    if 0 < al then some (100 - 100 / (1 + ag / al))
    else if 0 < ag then some 100
    else none
  else none

/-- True range at an index: on the first bar the high-low spread alone
(the shifted previous close is NaN and the row-wise max skips NaN),
afterwards the max of high-low, the absolute high-to-previous-close
move, and the absolute low-to-previous-close move. -/
def trAt (bars : List Bar) (i : ℕ) : ℚ :=
  let b := bars.getD i default
  if i = 0 then b.high - b.low
  else max (b.high - b.low)
    (max |b.high - closeAt bars (i - 1)| |b.low - closeAt bars (i - 1)|)

/-- ATR at an index: rolling mean of the true range. -/
def atrAt (p : Params) (bars : List Bar) (i : ℕ) : Option ℚ := rollMeanAt p.atrPeriod (trAt bars) i

/-- The whole ATR column for the series. -/
def atrSeries (p : Params) (bars : List Bar) : List (Option ℚ) :=
  (List.range bars.length).map (atrAt p bars)

/-- Average-method percentile rank of a value within a column, times
100, as computed by rank(pct=True) * 100: NaN entries are excluded
both from the ranking and from the denominator. -/
def rankPct (xs : List (Option ℚ)) (v : ℚ) : ℚ :=
  let vals := xs.filterMap id
  (((vals.filter (fun x => decide (x < v))).length : ℚ) +
      (((vals.filter (fun x => decide (x = v))).length : ℚ) + 1) / 2) /
    (vals.length : ℚ) * 100

/-- ATR percentile at an index: the full-sample percentile rank of that
index's ATR within the entire ATR column; NaN where ATR is NaN. -/
def atrPctAt (p : Params) (bars : List Bar) (i : ℕ) : Option ℚ :=
  (atrAt p bars i).map (rankPct (atrSeries p bars))

/-- Benchmark trend column: for each benchmark row, whether its close
is strictly above its 200-bar rolling SMA; the comparison against a
NaN SMA (fewer than 200 prior observations) is false. -/
def benchTrend (bench : List (ℕ × ℚ)) : List (ℕ × Bool) :=
  (List.range bench.length).map (fun i =>
    ((bench.getD i default).1,
      match rollMeanAt 200 (fun j => (bench.getD j default).2) i with
      | some m => decide (m < (bench.getD i default).2)
      | none => false))

/-- Date-aligned trend gate for a traded-instrument date: the benchmark
trend boolean when the date occurs in the benchmark index, NaN (none)
when it does not. -/
def trendOkAt (bench : List (ℕ × ℚ)) (d : ℕ) : Option Bool :=
  List.lookup d (benchTrend bench)

/-- The full row fed to the signal loop at an index: raw OHLC fields
plus every derived indicator column. -/
def rowAt (p : Params) (bars : List Bar) (bench : List (ℕ × ℚ)) (i : ℕ) : Row :=
  { low := (bars.getD i default).low
    high := (bars.getD i default).high
    close := (bars.getD i default).close
    smaS := rollMeanAt p.shortMa (closeAt bars) i
    smaL := rollMeanAt p.longMa (closeAt bars) i
    rsi := rsiAt p bars i
    atr := atrAt p bars i
    atrPct := atrPctAt p bars i
    trendOK := trendOkAt bench (bars.getD i default).date }

/-- The augmented price DataFrame: one row per bar. -/
def mkRows (p : Params) (bars : List Bar) (bench : List (ℕ × ℚ)) : List Row :=
  (List.range bars.length).map (rowAt p bars bench)

/-!
Helper lemmas about the loop body.
-/

/-- The entry condition unfolded into its four conjuncts. -/
theorem entryCond_eq_true_iff (p : Params) (r : Row) :
    entryCond p r = true ↔
      (oGt r.smaS r.smaL = true ∧ oLtC r.rsi p.rsiBuy = true ∧
        truthy r.trendOK = true ∧ oLtC r.atrPct p.volatilityFilter = true) := by
  simp [entryCond, Bool.and_eq_true, and_assoc]

/-- Fixture: a loop state holding an open long position. -/
def sLong : EngState :=
  { inPos := true, entry := some 100, stop := some 96, target := some 108, trail := some 96 }

/-- Fixture: a bar on which both the trail condition and the target
condition fire. -/
def rBoth : Row :=
  { low := 95, high := 109, close := 100, smaS := some 50, smaL := some 40,
    rsi := some 50, atr := some 2, atrPct := some 10, trendOK := some true }

/-- Fixture: a bar meeting all four entry conditions. -/
def rEntry : Row :=
  { low := 99, high := 101, close := 100, smaS := some 50, smaL := some 40,
    rsi := some 20, atr := some 2, atrPct := some 10, trendOK := some true }

/-- C1: while a position is open the exit checks run in the fixed
priority order trail stop, then profit target, then signal reversal,
each later check firing only when every earlier one is false; on a bar
where both the trail condition and the target condition hold the
emitted label is TRAIL STOP, never TAKE PROFIT. -/
theorem exit_priority (p : Params) (s : EngState) (r : Row) (hin : s.inPos = true)
    (tr : Option ℚ)
    (htr : tr = pyMax s.trail (r.atr.map (fun a => r.close - p.trailAtr * a))) :
    (lowLeTrail r.low tr = true →
      (stepBar p s r).1 = Signal.trailStop ∧ (stepBar p s r).2.inPos = false) ∧
    (lowLeTrail r.low tr = false → highGeTarget r.high s.target = true →
      (stepBar p s r).1 = Signal.takeProfit ∧ (stepBar p s r).2.inPos = false) ∧
    (lowLeTrail r.low tr = false → highGeTarget r.high s.target = false →
      (oLt r.smaS r.smaL || oGtC r.rsi p.rsiSell) = true →
      (stepBar p s r).1 = Signal.sell ∧ (stepBar p s r).2.inPos = false) ∧
    (lowLeTrail r.low tr = true → highGeTarget r.high s.target = true →
      (stepBar p s r).1 = Signal.trailStop ∧ (stepBar p s r).1 ≠ Signal.takeProfit) := by
  subst htr
  refine ⟨fun h1 => ?_, fun h1 h2 => ?_, fun h1 h2 h3 => ?_, fun h1 h2 => ?_⟩
  · simp [stepBar, hin, h1]
  · simp [stepBar, hin, h1, h2]
  · simp [stepBar, hin, h1, h2, h3]
  · simp [stepBar, hin, h1]

theorem exit_priority_witness :
    sLong.inPos = true ∧ (stepBar pDefault sLong rBoth).1 = Signal.trailStop ∧
      (stepBar pDefault sLong rBoth).1 ≠ Signal.takeProfit := by
  refine ⟨rfl, ?_⟩
  have h1 : lowLeTrail rBoth.low
      (pyMax sLong.trail (rBoth.atr.map (fun a => rBoth.close - pDefault.trailAtr * a))) = true := by
    norm_num [lowLeTrail, pyMax, sLong, rBoth, pDefault]
  have h2 : highGeTarget rBoth.high sLong.target = true := by
    norm_num [highGeTarget, sLong, rBoth]
  exact (exit_priority pDefault sLong rBoth rfl _ rfl).2.2.2 h1 h2

/-- C2: on every bar processed in the LONG state the trailing stop is
first updated to max(trail, close - trail_mult * ATR), so whatever exit
branch is then taken, the stored trail level never decreases. -/
theorem trail_ratchet (p : Params) (s : EngState) (r : Row) (hin : s.inPos = true)
    (t : ℚ) (ht : s.trail = some t) :
    (stepBar p s r).2.trail = pyMax s.trail (r.atr.map (fun a => r.close - p.trailAtr * a)) ∧
    ∃ u, (stepBar p s r).2.trail = some u ∧ t ≤ u := by
  have h1 : (stepBar p s r).2.trail =
      pyMax s.trail (r.atr.map (fun a => r.close - p.trailAtr * a)) := by
    simp only [stepBar, hin]
    split_ifs <;> simp_all
  refine ⟨h1, ?_⟩
  rw [h1]
  rcases hatr : r.atr with _ | a
  · exact ⟨t, by simp [pyMax, ht, hatr], le_refl t⟩
  · exact ⟨max t (r.close - p.trailAtr * a), by simp [pyMax, ht, hatr], le_max_left _ _⟩

theorem trail_ratchet_witness :
    sLong.inPos = true ∧ sLong.trail = some 96 ∧
      ∃ u, (stepBar pDefault sLong rBoth).2.trail = some u ∧ (96 : ℚ) ≤ u :=
  ⟨rfl, rfl, (trail_ratchet pDefault sLong rBoth rfl 96 rfl).2⟩

/-- C3: at a bar processed in the FLAT state, BUY is emitted exactly
when all four entry conditions hold (short SMA above long SMA, RSI
below the buy threshold, trend gate truthy, ATR percentile below the
volatility filter); on that transition the state records entry = close,
stop = entry - stop_mult * ATR, target = entry + target_mult * ATR and
trail = stop; otherwise the label is NO TRADE and the state is
untouched. -/
theorem entry_rule (p : Params) (s : EngState) (r : Row) (hflat : s.inPos = false) :
    ((stepBar p s r).1 = Signal.buy ↔
      (oGt r.smaS r.smaL = true ∧ oLtC r.rsi p.rsiBuy = true ∧
        truthy r.trendOK = true ∧ oLtC r.atrPct p.volatilityFilter = true)) ∧
    (∀ a, r.atr = some a →
      (oGt r.smaS r.smaL = true ∧ oLtC r.rsi p.rsiBuy = true ∧
        truthy r.trendOK = true ∧ oLtC r.atrPct p.volatilityFilter = true) →
      (stepBar p s r).2 =
        { inPos := true, entry := some r.close, stop := some (r.close - p.stopAtr * a),
          target := some (r.close + p.targetAtr * a),
          trail := some (r.close - p.stopAtr * a) }) ∧
    (¬ (oGt r.smaS r.smaL = true ∧ oLtC r.rsi p.rsiBuy = true ∧
        truthy r.trendOK = true ∧ oLtC r.atrPct p.volatilityFilter = true) →
      (stepBar p s r).1 = Signal.noTrade ∧ (stepBar p s r).2 = s) := by
  have hiff := entryCond_eq_true_iff p r
  cases he : entryCond p r with
  | true =>
    refine ⟨?_, ?_, ?_⟩
    · rw [← hiff]
      simp [stepBar, hflat, he]
    · intro a ha _
      simp [stepBar, hflat, he, ha]
    · intro hn
      exact absurd (hiff.mp he) hn
  | false =>
    refine ⟨?_, ?_, ?_⟩
    · rw [← hiff]
      simp [stepBar, hflat, he]
    · intro a ha htuple
      rw [← hiff] at htuple
      rw [he] at htuple
      exact absurd htuple (by simp)
    · intro hn
      simp [stepBar, hflat, he]

theorem entry_rule_witness :
    initState.inPos = false ∧ (stepBar pDefault initState rEntry).1 = Signal.buy := by
  refine ⟨rfl, ?_⟩
  exact (entry_rule pDefault initState rEntry rfl).1.mpr
    ⟨by norm_num [oGt, rEntry], by norm_num [oLtC, rEntry, pDefault],
      by norm_num [truthy, rEntry], by norm_num [oLtC, rEntry, pDefault]⟩

/-!
Bookkeeping for the single-open-position invariant: of the label
vocabulary, BUY opens a position, SELL, TRAIL STOP and TAKE PROFIT
close one, and the rest leave it unchanged.
-/

/-- Whether a label is the entry label. -/
def isBuy : Signal → Bool
  | Signal.buy => true
  | _ => false

/-- Whether a label is one of the three exit labels. -/
def isExit : Signal → Bool
  | Signal.sell => true
  | Signal.trailStop => true
  | Signal.takeProfit => true
  | _ => false

/-- Whether a label changes the position state at all. -/
def isEvent (x : Signal) : Bool := isBuy x || isExit x

/-- The event sublist alternates, starting with an entry when the
expected flag is true: entry, exit, entry, exit, and so on. -/
def alternate (b : Bool) : List Signal → Bool
  | [] => true
  | x :: rest => (if b then isBuy x else isExit x) && alternate (!b) rest

/-- A flat-state step either buys and opens the position or emits NO
TRADE and stays flat. -/
theorem step_flat (p : Params) (s : EngState) (r : Row) (h : s.inPos = false) :
    ((stepBar p s r).1 = Signal.buy ∧ (stepBar p s r).2.inPos = true) ∨
      ((stepBar p s r).1 = Signal.noTrade ∧ (stepBar p s r).2.inPos = false) := by
  cases he : entryCond p r with
  | true => exact Or.inl (by simp [stepBar, h, he])
  | false => exact Or.inr (by simp [stepBar, h, he])

/-- An in-position step either emits one of the three exit labels and
closes the position or leaves the default label and stays long. -/
theorem step_long (p : Params) (s : EngState) (r : Row) (h : s.inPos = true) :
    (isExit (stepBar p s r).1 = true ∧ (stepBar p s r).2.inPos = false) ∨
      ((stepBar p s r).1 = Signal.cash ∧ (stepBar p s r).2.inPos = true) := by
  simp only [stepBar, h]
  split_ifs <;> simp_all [isExit]

/-- Main alternation invariant of the scan: starting from any state,
the event sublist of the emitted labels alternates, expecting an entry
first exactly when the current state is flat. -/
theorem alternate_stepsFrom (p : Params) :
    ∀ (rows : List Row) (s : EngState),
      alternate (!s.inPos) (List.filter isEvent (stepsFrom p s rows)) = true := by
  intro rows
  induction rows with
  | nil => intro s; rfl
  | cons r rest ih =>
    intro s
    cases hp : s.inPos with
    | false =>
      rcases step_flat p s r hp with ⟨h1, h2⟩ | ⟨h1, h2⟩
      · have hr := ih (stepBar p s r).2
        rw [h2] at hr
        simpa [stepsFrom, h1, hp, isEvent, isBuy, alternate] using hr
      · have hr := ih (stepBar p s r).2
        rw [h2] at hr
        simpa [stepsFrom, h1, hp, isEvent, isBuy, isExit, alternate] using hr
    | true =>
      rcases step_long p s r hp with ⟨h1, h2⟩ | ⟨h1, h2⟩
      · have hr := ih (stepBar p s r).2
        rw [h2] at hr
        have hb : isBuy (stepBar p s r).1 = false := by
          cases hx : (stepBar p s r).1 <;> simp_all [isBuy, isExit]
        simpa [stepsFrom, hp, isEvent, h1, hb, alternate] using hr
      · have hr := ih (stepBar p s r).2
        rw [h2] at hr
        simpa [stepsFrom, h1, hp, isEvent, isBuy, isExit, alternate] using hr

/-- C4: at most one position is open at any time: in the emitted label
sequence the entry and exit events strictly alternate starting with
BUY, so between two consecutive BUY labels there is exactly one exit
label; moreover a bar whose step starts in the LONG state can never
emit BUY, so a position that exits on a bar cannot re-enter on that
same bar. -/
theorem single_position (p : Params) (rows : List Row) :
    alternate true (List.filter isEvent (runEngine p rows)) = true ∧
      ∀ (s : EngState) (r : Row), s.inPos = true → (stepBar p s r).1 ≠ Signal.buy := by
  constructor
  · cases rows with
    | nil => rfl
    | cons r0 rest =>
      have h := alternate_stepsFrom p rest initState
      simpa [runEngine, initState, isEvent, isBuy, isExit, alternate] using h
  · intro s r hs hbuy
    rcases step_long p s r hs with ⟨h1, _⟩ | ⟨h1, _⟩
    · rw [hbuy] at h1
      simp [isExit] at h1
    · rw [hbuy] at h1
      exact Signal.noConfusion h1

theorem single_position_witness :
    alternate true (List.filter isEvent (runEngine pDefault [rEntry, rBoth])) = true ∧
      sLong.inPos = true ∧ (stepBar pDefault sLong rBoth).1 ≠ Signal.buy :=
  ⟨(single_position pDefault [rEntry, rBoth]).1, rfl,
    (single_position pDefault [rEntry, rBoth]).2 sLong rBoth rfl⟩

/-- C5 counterexample: with account 50000, risk 1 percent and stop
multiplier 2, an ATR of 1000 is nonzero yet the computed share count
is int(500 / 2000) = 0, so the biconditional of the claim fails. -/
theorem shares_zero_iff_cex :
    ¬ (computeShares 50000 (1/100) 2 (some 1000) = 0 ↔ (1000 : ℚ) = 0) := by
  intro h
  have h0 : computeShares 50000 (1/100) 2 (some 1000) = 0 := by
    norm_num [computeShares, pyTrunc, ratFloor_eq_intFloor]
  have := h.mp h0
  norm_num at this

/-- C5 (amended): given positive account size, risk fraction and stop
multiplier, and a non-negative ATR value, the share count is zero iff
the ATR is zero or the risk dollars fall below one stop distance, that
is risk_dollars < stop_mult * ATR. -/
theorem shares_zero_iff (acct risk stop a : ℚ) (hA : 0 < acct) (hR : 0 < risk)
    (hS : 0 < stop) (ha : 0 ≤ a) :
    computeShares acct risk stop (some a) = 0 ↔ (a = 0 ∨ acct * risk < stop * a) := by
  rcases eq_or_lt_of_le ha with h0 | h0
  · simp [computeShares, ← h0]
  · have hq : (0:ℚ) < acct * risk / (stop * a) := by positivity
    simp only [computeShares, if_pos h0]
    rw [pyTrunc, if_pos hq.le, ratFloor_eq_intFloor]
    rw [Int.floor_eq_zero_iff, Set.mem_Ico, div_lt_one (mul_pos hS h0)]
    simp [hq.le, h0.ne']

theorem shares_zero_iff_witness :
    (0:ℚ) < 50000 ∧
      (computeShares 50000 (1/100) 2 (some 1000) = 0 ↔
        ((1000 : ℚ) = 0 ∨ (50000 : ℚ) * (1/100) < 2 * 1000)) :=
  ⟨by norm_num,
    shares_zero_iff 50000 (1/100) 2 1000 (by norm_num) (by norm_num) (by norm_num) (by norm_num)⟩

/-- C6: the position sizer returns a non-negative integer; it is
floor(risk_dollars / (stop_mult * ATR)) when the latest ATR is a
positive number and 0 whenever the ATR is non-positive or NaN, so the
division is never performed in those cases; in the concrete scenario
of account 50000, risk 1 percent, stop multiplier 2 and ATR 5 the risk
dollars are 500 and the share count is 50. -/
theorem position_sizer (acct risk stop : ℚ) (atr : Option ℚ)
    (hA : 0 < acct) (hR : 0 < risk) (hS : 0 < stop) :
    0 ≤ computeShares acct risk stop atr ∧
    (∀ a, atr = some a → 0 < a →
      computeShares acct risk stop atr = ⌊acct * risk / (stop * a)⌋) ∧
    (∀ a, atr = some a → a ≤ 0 → computeShares acct risk stop atr = 0) ∧
    (atr = none → computeShares acct risk stop atr = 0) ∧
    computeShares 50000 (1/100) 2 (some 5) = 50 ∧ (50000 : ℚ) * (1/100) = 500 := by
  refine ⟨?_, ?_, ?_, ?_, ?_, by norm_num⟩
  · rcases atr with _ | a
    · simp [computeShares]
    · simp only [computeShares]
      split_ifs with h
      · have hq : (0:ℚ) ≤ acct * risk / (stop * a) := by positivity
        rw [pyTrunc, if_pos hq, ratFloor_eq_intFloor]
        exact Int.floor_nonneg.mpr hq
      · exact le_refl 0
  · intro a ha h
    subst ha
    have hq : (0:ℚ) ≤ acct * risk / (stop * a) := by positivity
    simp only [computeShares, if_pos h]
    rw [pyTrunc, if_pos hq, ratFloor_eq_intFloor]
  · intro a ha h
    subst ha
    simp [computeShares, not_lt.mpr h]
  · intro h
    subst h
    rfl
  · norm_num [computeShares, pyTrunc, ratFloor_eq_intFloor]

theorem position_sizer_witness :
    (0:ℚ) < 50000 ∧ computeShares 50000 (1/100) 2 (some 5) = 50 :=
  ⟨by norm_num,
    (position_sizer 50000 (1/100) 2 (some 5) (by norm_num) (by norm_num)
        (by norm_num)).2.2.2.2.1⟩

/-!
Warm-up safety: a BUY can only be emitted through the entry condition,
and the entry condition forces every compared indicator to be defined.
-/

/-- A step emits BUY only when its entry condition holds. -/
theorem stepBar_buy (p : Params) (s : EngState) (r : Row)
    (h : (stepBar p s r).1 = Signal.buy) : entryCond p r = true := by
  cases hp : s.inPos with
  | false =>
    cases he : entryCond p r with
    | false => simp [stepBar, hp, he] at h
    | true => rfl
  | true =>
    rcases step_long p s r hp with ⟨h1, _⟩ | ⟨h1, _⟩
    · rw [h] at h1
      simp [isExit] at h1
    · rw [h] at h1
      exact Signal.noConfusion h1

/-- Along any scan, a BUY at an output index points to a row of the
input at the same index whose entry condition holds. -/
theorem stepsFrom_buy (p : Params) :
    ∀ (rows : List Row) (s : EngState) (i : ℕ),
      (stepsFrom p s rows).get? i = some Signal.buy →
      ∃ r, rows.get? i = some r ∧ entryCond p r = true := by
  intro rows
  induction rows with
  | nil => intro s i h; simp [stepsFrom] at h
  | cons r rest ih =>
    intro s i h
    cases i with
    | zero =>
      simp only [stepsFrom, List.get?_cons_zero, Option.some.injEq] at h
      exact ⟨r, rfl, stepBar_buy p s r h⟩
    | succ n =>
      simp only [stepsFrom, List.get?_cons_succ] at h
      obtain ⟨r2, hr, he⟩ := ih (stepBar p s r).2 n h
      exact ⟨r2, by simpa using hr, he⟩

/-- In the full engine output, a BUY label at an index points to an
input row at the same index whose entry condition holds. -/
theorem runEngine_buy (p : Params) (rows : List Row) (i : ℕ)
    (h : (runEngine p rows).get? i = some Signal.buy) :
    ∃ r, rows.get? i = some r ∧ entryCond p r = true := by
  cases rows with
  | nil => simp [runEngine] at h
  | cons r0 rest =>
    cases i with
    | zero => simp [runEngine] at h
    | succ n =>
      simp only [runEngine, List.get?_cons_succ] at h
      obtain ⟨r2, hr, he⟩ := stepsFrom_buy p rest initState n h
      exact ⟨r2, by simpa using hr, he⟩

/-- A NaN left side never compares greater. -/
theorem oGt_ne_none (a b : Option ℚ) (h : oGt a b = true) : a ≠ none ∧ b ≠ none := by
  cases a <;> cases b <;> simp [oGt] at h ⊢

/-- A NaN value never compares below a constant. -/
theorem oLtC_ne_none (a : Option ℚ) (c : ℚ) (h : oLtC a c = true) : a ≠ none := by
  cases a <;> simp [oLtC] at h ⊢

/-- The entry condition forces the two SMAs, the RSI and the ATR
percentile of the row to be defined. -/
theorem entryCond_defined (p : Params) (r : Row) (h : entryCond p r = true) :
    r.smaS ≠ none ∧ r.smaL ≠ none ∧ r.rsi ≠ none ∧ r.atrPct ≠ none := by
  rw [entryCond_eq_true_iff] at h
  obtain ⟨h1, h2, _, h4⟩ := h
  obtain ⟨hs, hl⟩ := oGt_ne_none _ _ h1
  exact ⟨hs, hl, oLtC_ne_none _ _ h2, oLtC_ne_none _ _ h4⟩

/-- Reading the built row list at an index yields the row built at that
index. -/
theorem mkRows_read (p : Params) (bars : List Bar) (bench : List (ℕ × ℚ)) (i : ℕ)
    (r : Row) (h : (mkRows p bars bench).get? i = some r) : r = rowAt p bars bench i := by
  by_cases hi : i < bars.length
  · rw [mkRows, List.get?_map, List.get?_range hi] at h
    simp at h
    exact h.symm
  · rw [mkRows, List.get?_map, List.get?_eq_none.mpr (by simpa using not_lt.mp hi)] at h
    simp at h

/-- Fixture: a two-bar series, shorter than every default window. -/
def barsW : List Bar := [⟨0, 10, 9, 9⟩, ⟨1, 11, 10, 10⟩]

/-- Fixture: an empty benchmark series. -/
def benchW : List (ℕ × ℚ) := []

/-- C7: on every bar occurring before a required indicator window is
fully populated the corresponding indicator is undefined: the short
SMA for the first shortMa - 1 bars, the long SMA for the first
longMa - 1 bars, the RSI for the first rsiPeriod bars (its rolling
window overlaps the NaN first difference), the ATR and hence the ATR
percentile for the first atrPeriod - 1 bars; and whenever any of the
four compared indicators is undefined at a bar, the engine does not
emit BUY at that bar. -/
theorem warmup_no_buy (p : Params) (bars : List Bar) (bench : List (ℕ × ℚ)) (i : ℕ) :
    (i + 1 < p.shortMa → (rowAt p bars bench i).smaS = none) ∧
    (i + 1 < p.longMa → (rowAt p bars bench i).smaL = none) ∧
    (i < p.rsiPeriod → (rowAt p bars bench i).rsi = none) ∧
    (i + 1 < p.atrPeriod →
      (rowAt p bars bench i).atr = none ∧ (rowAt p bars bench i).atrPct = none) ∧
    ((rowAt p bars bench i).smaS = none ∨ (rowAt p bars bench i).smaL = none ∨
        (rowAt p bars bench i).rsi = none ∨ (rowAt p bars bench i).atrPct = none →
      (runEngine p (mkRows p bars bench)).get? i ≠ some Signal.buy) := by
  refine ⟨?_, ?_, ?_, ?_, ?_⟩
  · intro h
    simp [rowAt, rollMeanAt, not_le.mpr h]
  · intro h
    simp [rowAt, rollMeanAt, not_le.mpr h]
  · intro h
    simp [rowAt, rsiAt, not_le.mpr h]
  · intro h
    have hatr : atrAt p bars i = none := by
      simp [atrAt, rollMeanAt, not_le.mpr h]
    exact ⟨by simp [rowAt, hatr], by simp [rowAt, atrPctAt, hatr]⟩
  · intro hund hbuy
    obtain ⟨r, hr, he⟩ := runEngine_buy p _ i hbuy
    rw [mkRows_read p bars bench i r hr] at he
    obtain ⟨hs, hl, hrsi, hpct⟩ := entryCond_defined p _ he
    rcases hund with h | h | h | h
    exacts [hs h, hl h, hrsi h, hpct h]

theorem warmup_no_buy_witness :
    1 + 1 < pDefault.shortMa ∧ (rowAt pDefault barsW benchW 1).smaS = none ∧
      (runEngine pDefault (mkRows pDefault barsW benchW)).get? 1 ≠ some Signal.buy := by
  refine ⟨by norm_num [pDefault], ?_, ?_⟩
  · exact (warmup_no_buy pDefault barsW benchW 1).1 (by norm_num [pDefault])
  · exact (warmup_no_buy pDefault barsW benchW 1).2.2.2.2
      (Or.inl ((warmup_no_buy pDefault barsW benchW 1).1 (by norm_num [pDefault])))

/-- C8: the program performs no fail-fast validation of an empty input
series: the per-bar scan over an empty series silently produces an
empty signal series, and only the later latest-bar access of the
position sizer has nothing to return (in Python, price.iloc[-1] raises
an unhandled IndexError after the scan instead of a descriptive error
before it). -/
theorem empty_series_no_failfast :
    runEngine pDefault ([] : List Row) = [] ∧ latestRow ([] : List Row) = none :=
  ⟨rfl, rfl⟩

/-!
Look-ahead in the ATR percentile: the rank is taken over the whole ATR
column, so appending one bar can change the percentile of an earlier
bar.
-/

/-- Fixture: parameters with a one-bar ATR window, so ATR equals the
true range. -/
def pShort : Params := { pDefault with atrPeriod := 1 }

/-- Fixture: three bars whose true ranges are 1, 2 and 3. -/
def barsA : List Bar := [⟨0, 1, 0, 0⟩, ⟨1, 2, 0, 0⟩, ⟨2, 3, 0, 0⟩]

/-- Fixture: a fourth bar whose true range is 0. -/
def barB : Bar := ⟨3, 0, 0, 0⟩

/-- C9: the ATR percentile at a bar is the percentile rank of that
bar's ATR within the entire ATR column, not within a trailing window;
consequently appending one extra bar to the series can change the ATR
percentile recorded at an earlier bar, exhibited concretely at index 1
of a three-bar series whose percentile moves from 200/3 to 75 when a
lower-range fourth bar is appended. -/
theorem atr_pct_lookahead :
    (∀ (p : Params) (bars : List Bar) (i : ℕ) (a : ℚ), atrAt p bars i = some a →
      atrPctAt p bars i = some (rankPct (atrSeries p bars) a)) ∧
    (1 : ℕ) < barsA.length ∧
    atrPctAt pShort barsA 1 = some (200/3) ∧
    atrPctAt pShort (barsA ++ [barB]) 1 = some 75 ∧
    (200/3 : ℚ) ≠ 75 := by
  refine ⟨?_, by norm_num [barsA], ?_, ?_, by norm_num⟩
  · intro p bars i a h
    simp [atrPctAt, h]
  · norm_num [atrPctAt, atrAt, rollMeanAt, atrSeries, rankPct, trAt, closeAt, listMean,
      barsA, barB, pShort, pDefault, List.range_succ, List.filterMap_cons, List.filter_cons]
  · norm_num [atrPctAt, atrAt, rollMeanAt, atrSeries, rankPct, trAt, closeAt, listMean,
      barsA, barB, pShort, pDefault, List.range_succ, List.filterMap_cons, List.filter_cons]

theorem atr_pct_lookahead_witness :
    atrAt pShort barsA 1 = some 2 ∧
      atrPctAt pShort barsA 1 = some (rankPct (atrSeries pShort barsA) 2) := by
  have h : atrAt pShort barsA 1 = some 2 := by
    norm_num [atrAt, rollMeanAt, trAt, closeAt, listMean, barsA, pShort, pDefault,
      List.range_succ]
  exact ⟨h, atr_pct_lookahead.1 pShort barsA 1 2 h⟩

/-!
The date-aligned trend gate: a traded-instrument date absent from the
benchmark index receives a NaN gate value, and NaN is permissive in
the entry conjunction.
-/

/-- A lookup over an association list none of whose keys is the probed
key yields none. -/
theorem lookup_none_of_keys_ne (d : ℕ) (l : List (ℕ × Bool))
    (h : ∀ x ∈ l, x.1 ≠ d) : List.lookup d l = none := by
  induction l with
  | nil => rfl
  | cons x rest ih =>
    rcases x with ⟨k, b⟩
    have hk : k ≠ d := h (k, b) (List.mem_cons_self _ _)
    have hrec := ih (fun y hy => h y (List.mem_cons_of_mem _ hy))
    have hdk : (d == k) = false := beq_eq_false_iff_ne.mpr (fun hdk => hk hdk.symm)
    simp [List.lookup_cons, hdk, hrec]

/-- Every key of the benchmark trend column is a date of the benchmark
series. -/
theorem benchTrend_keys (bench : List (ℕ × ℚ)) (d : ℕ) (h : ∀ x ∈ bench, x.1 ≠ d) :
    ∀ y ∈ benchTrend bench, y.1 ≠ d := by
  intro y hy
  obtain ⟨i, hi, rfl⟩ := List.mem_map.mp hy
  have hlt : i < bench.length := List.mem_range.mp hi
  have hmem : bench.getD i default ∈ bench := by
    rw [List.getD_eq_getElem?_getD, List.getElem?_eq_getElem hlt]
    simp
  exact h _ hmem

/-- Fixture: the entry bar with a NaN trend gate. -/
def rNaNTrend : Row := { rEntry with trendOK := none }

/-- C10: a traded-instrument date absent from the benchmark series
receives an undefined (NaN) trend-gate value, not false; and in the
entry evaluation an undefined trend gate is permissive: a flat-state
bar whose other three entry conditions hold and whose trend gate is
NaN still emits BUY. -/
theorem trend_gate_permissive (bench : List (ℕ × ℚ)) (d : ℕ)
    (habsent : ∀ x ∈ bench, x.1 ≠ d) :
    trendOkAt bench d = none ∧
    ∀ (p : Params) (s : EngState) (r : Row), s.inPos = false → r.trendOK = none →
      oGt r.smaS r.smaL = true → oLtC r.rsi p.rsiBuy = true →
      oLtC r.atrPct p.volatilityFilter = true → (stepBar p s r).1 = Signal.buy := by
  constructor
  · exact lookup_none_of_keys_ne d (benchTrend bench) (benchTrend_keys bench d habsent)
  · intro p s r h1 h2 h3 h4 h5
    have he : entryCond p r = true := by
      rw [entryCond_eq_true_iff]
      exact ⟨h3, h4, by simp [truthy, h2], h5⟩
    simp [stepBar, h1, he]

theorem trend_gate_permissive_witness :
    trendOkAt [((0:ℕ), (5:ℚ))] 1 = none ∧
      (stepBar pDefault initState rNaNTrend).1 = Signal.buy := by
  have h := trend_gate_permissive [((0:ℕ), (5:ℚ))] 1 (by norm_num)
  exact ⟨h.1, h.2 pDefault initState rNaNTrend rfl rfl
    (by norm_num [oGt, rNaNTrend, rEntry])
    (by norm_num [oLtC, rNaNTrend, rEntry, pDefault])
    (by norm_num [oLtC, rNaNTrend, rEntry, pDefault])⟩
